import Mathlib

/-!
Verification of the asynchronous HTTP request multiplexer (`http2.c` / `http2.h`).

The development is a shallow embedding of the C source:
* the header-capture callback `fwrite_headers` (with `is_hdr_continuation`,
  `skip_iprefix_mem`, `strbuf_trim`) becomes a pure function on lists of strings;
* the request-body reader `fread_strbuf` becomes a pure function on lists;
* the slot pool / multi-transfer scheduler (`get_slot`, `start_slot`,
  `process_curl_messages`, `cleanup_slots`, `step_slots`, `run_slot`,
  `http_request`) becomes a state machine on an explicit `PoolState`, with the
  behaviour of libcurl (registration results, per-step running-transfer counts
  and completion messages) supplied by an explicit environment;
* the `curl_easy_setopt` configuration performed by `http_request` becomes an
  ordered assignment list over symbolic option names and values.
-/

namespace Http2

/-! ## Character and string primitives (git support code)

`tolower` is git's sane ASCII tolower; `isspace` is git's sane isspace, which
holds exactly for space, horizontal tab, line feed and carriage return.
`strbuf_trim` removes leading and trailing `isspace` characters.
`skip_iprefix_mem` is the case-insensitive bounded prefix test used on the raw
header line (it also yields the remainder in C; only the match result is used
by `fwrite_headers`). -/

def tolower (c : Char) : Char :=
  if 'A' ≤ c ∧ c ≤ 'Z' then Char.ofNat (c.toNat + 32) else c

def isspace (c : Char) : Bool :=
  c = ' ' || c = '\t' || c = '\n' || c = '\r'

def strbuf_trim (l : List Char) : List Char :=
  ((l.dropWhile isspace).reverse.dropWhile isspace).reverse

def skip_iprefix_mem : List Char → List Char → Bool
  | _, [] => true
  | [], _ :: _ => false
  | c :: cs, p :: ps => tolower c = tolower p && skip_iprefix_mem cs ps

/-- `is_hdr_continuation` (http2.c): a folded header continuation line starts
with a space or horizontal tab; the empty line is not a continuation. -/
def is_hdr_continuation : List Char → Bool
  | [] => false
  | c :: _ => c = ' ' || c = '\t'

/-- `fwrite_headers` (http2.c), acting on one raw header line.  The captured
values (`struct strvec *values`) are a list of strings; the result is `none`
exactly when the `BUG("should have at least one existing header value")`
abort is reached.  A status line (case-insensitive `http/` prefix) clears the
capture list; a continuation line is trimmed and, when non-empty, joined to
the most recently captured value with a single space (only when the previous
value is itself non-empty); any other line is trimmed and appended as a new
value. -/
def fwrite_headers (values : List String) (line : String) : Option (List String) :=
  let ptr := line.data
  if skip_iprefix_mem ptr ("http/".data) then
    some []
  else if is_hdr_continuation ptr then
    let buf := strbuf_trim ptr
    match values.reverse with
    | [] => none
    | prev :: restRev =>
      if buf.isEmpty then
        some values
      else
        let sp := if prev.isEmpty then "" else " "
        some (restRev.reverse ++ [prev ++ sp ++ String.mk buf])
  else
    some (values ++ [String.mk (strbuf_trim ptr)])

/-- Feeding a sequence of raw header lines to `fwrite_headers`, propagating the
abort. -/
def header_lines (values : List String) : List String → Option (List String)
  | [] => some values
  | l :: rest =>
    match fwrite_headers values l with
    | none => none
    | some v => header_lines v rest

/-! ## Request-body buffer reader (`fread_strbuf`)

`fread_strbuf(ptr, eltsize, nmemb, userdata)` copies at most
`eltsize * nmemb` bytes (here `cap`) from the front of the caller's strbuf
into curl's destination, removes exactly the copied prefix from the strbuf
(`strbuf_remove(buf, 0, size)`) and returns the number of bytes copied.  The
model returns the pair (bytes handed to curl, remaining buffer). -/

def fread_strbuf (cap : Nat) (buf : List α) : List α × List α :=
  let size := if cap > buf.length then buf.length else cap
  (buf.take size, buf.drop size)

/-- Iterating `fread_strbuf` with one capacity per curl read call,
concatenating everything handed to curl. -/
def fread_strbuf_drain : List Nat → List α → List α × List α
  | [], buf => ([], buf)
  | c :: cs, buf =>
    let step := fread_strbuf c buf
    let rest := fread_strbuf_drain cs step.2
    (step.1 ++ rest.1, rest.2)

/-! ## Slot pool and scheduler state

A `Slot` is the C `struct slot` minus the pointers that the model represents
structurally: `next` becomes the ordering of `PoolState.slots` (the list headed
by `queue_head`), the `CURL *curl` handle becomes an optional handle id, and
the `response` pointer is not modelled (no claim depends on the fields copied
into the caller's response beyond the slot's own `curl_result`).

The C `xmalloc` in `get_slot` leaves `finished` and `curl_result`
uninitialized; the model gives a fresh slot the benign values `false` / `0`
(reading them before assignment is undefined behaviour in the C program). -/

structure Slot where
  in_use : Bool
  finished : Bool
  curl : Option Nat
  curl_result : Int
deriving DecidableEq, Repr

instance : Inhabited Slot := ⟨⟨false, false, none, 0⟩⟩

/-- The process-wide scheduler state: the slot list headed by `queue_head`,
the globals `curl_session_count`, `min_curl_sessions` and `active_requests`,
and a counter supplying the identity of the next handle cloned by
`curl_easy_duphandle`. -/
structure PoolState where
  slots : List Slot
  curl_session_count : Int
  min_curl_sessions : Int
  active_requests : Int
  next_handle : Nat
deriving DecidableEq, Repr

instance : Inhabited PoolState := ⟨⟨[], 0, 1, 0, 0⟩⟩

/-- The slot at position `i` of a slot list, `default` past the end. -/
def nthSlot : List Slot → Nat → Slot
  | [], _ => default
  | sl :: _, 0 => sl
  | _ :: rest, i + 1 => nthSlot rest i

/-- The slot at position `i` of the pool list (`queue_head` walk). -/
def slotAt (s : PoolState) (i : Nat) : Slot :=
  nthSlot s.slots i

/-- Index of the first slot with `in_use = 0` (the `while (slot != NULL &&
slot->in_use)` walk of `get_slot`). -/
def find_idle : List Slot → Option Nat
  | [] => none
  | sl :: rest => if sl.in_use then (find_idle rest).map Nat.succ else some 0

/-- The fresh slot allocated by `get_slot` (`curl = NULL`, `in_use = 0`;
`finished`/`curl_result` are uninitialized in C, modelled as `false`/`0`). -/
def new_slot : Slot := ⟨false, false, none, 0⟩

/-- The tail of `get_slot` operating on the chosen slot index `i` of the
working list `slots0`: clone a handle from `curl_default` if the slot has
none (incrementing `curl_session_count`), increment `active_requests`, set
`in_use = 1` and clear `curl_result`.  `slot->next = NULL` detaches every
slot after position `i` from the list, which the model renders as
`slots0.take i ++ [slot]`.  Note that `finished` is not written. -/
def get_slot_core (s : PoolState) (i : Nat) (slots0 : List Slot) : Nat × PoolState :=
  match (nthSlot slots0 i).curl with
  | none =>
    -- slot fields: in_use := 1, finished untouched, curl := cloned handle, curl_result := CURLE_OK
    (i, { slots := slots0.take i ++
            [⟨true, (nthSlot slots0 i).finished, some s.next_handle, 0⟩],
          curl_session_count := s.curl_session_count + 1,
          min_curl_sessions := s.min_curl_sessions,
          active_requests := s.active_requests + 1,
          next_handle := s.next_handle + 1 })
  | some _ =>
    (i, { slots := slots0.take i ++
            [⟨true, (nthSlot slots0 i).finished, (nthSlot slots0 i).curl, 0⟩],
          curl_session_count := s.curl_session_count,
          min_curl_sessions := s.min_curl_sessions,
          active_requests := s.active_requests + 1,
          next_handle := s.next_handle })

/-- `get_slot` (http2.c): reuse the first idle slot, or append a fresh slot at
the end of the list when every slot is busy. -/
def get_slot (s : PoolState) : Nat × PoolState :=
  match find_idle s.slots with
  | some i => get_slot_core s i s.slots
  | none => get_slot_core s s.slots.length (s.slots ++ [new_slot])

def CURLM_OK : Int := 0
def CURLM_CALL_MULTI_PERFORM : Int := -1

/-- Replace slot `i` by `f` applied to it (in-place mutation through the slot
pointer in C). -/
def set_slot (s : PoolState) (i : Nat) (f : Slot → Slot) : PoolState :=
  { s with slots := s.slots.set i (f (nthSlot s.slots i)) }

/-- `start_slot` (http2.c): `curl_multi_add_handle` returns `addResult`; on
any result other than `CURLM_OK` / `CURLM_CALL_MULTI_PERFORM` the transfer is
not registered: `active_requests` is decremented, the slot is released
(`in_use = 0`) and `0` is returned.  On success one immediate
`curl_multi_perform` is issued (no effect on the model state) and `1` is
returned. -/
def start_slot (addResult : Int) (i : Nat) (s : PoolState) : Bool × PoolState :=
  if addResult ≠ CURLM_OK ∧ addResult ≠ CURLM_CALL_MULTI_PERFORM then
    (false,
     set_slot { s with active_requests := s.active_requests - 1 } i
       (fun sl => { sl with in_use := false }))
  else
    (true, s)

/-- One `CURLMSG_DONE` message: the completed easy handle and its `CURLcode`
result. -/
structure CurlMsg where
  handle : Nat
  result : Int
deriving DecidableEq, Repr

/-- Index of the first slot whose handle is `h` (the `while (slot != NULL &&
slot->curl != curl_message->easy_handle)` walk). -/
def find_by_handle (h : Nat) : List Slot → Option Nat
  | [] => none
  | sl :: rest => if sl.curl = some h then some 0 else (find_by_handle h rest).map Nat.succ

/-- Handling of one `CURLMSG_DONE` message in `process_curl_messages`: find
the owning slot by handle identity; if found, store the result on the slot,
copy the terminal fields to the caller's response (not modelled), decrement
`active_requests` and mark the slot `in_use = 0, finished = 1`; an unmatched
message is logged and skipped. -/
def process_message (s : PoolState) (m : CurlMsg) : PoolState :=
  match find_by_handle m.handle s.slots with
  | some i =>
    set_slot { s with active_requests := s.active_requests - 1 } i
      (fun sl => { sl with curl_result := m.result, in_use := false, finished := true })
  | none => s

/-- `process_curl_messages` (http2.c): drain the queued `CURLMSG_DONE`
messages in order. -/
def process_curl_messages (s : PoolState) (msgs : List CurlMsg) : PoolState :=
  msgs.foldl process_message s

/-- The walk of `cleanup_slots`, threading `curl_session_count`: an idle slot
holding a handle has the handle destroyed while the session count exceeds
`min_curl_sessions`. -/
def cleanup_go (floor : Int) : List Slot → Int → List Slot × Int
  | [], n => ([], n)
  | sl :: rest, n =>
    if sl.in_use = false ∧ sl.curl ≠ none ∧ n > floor then
      let r := cleanup_go floor rest (n - 1)
      ({ sl with curl := none } :: r.1, r.2)
    else
      let r := cleanup_go floor rest n
      (sl :: r.1, r.2)

/-- `cleanup_slots` (http2.c). -/
def cleanup_slots (s : PoolState) : PoolState :=
  let r := cleanup_go s.min_curl_sessions s.slots s.curl_session_count
  { s with slots := r.1, curl_session_count := r.2 }

/-- One invocation of `step_slots`, as seen from the model: libcurl reports
`num_transfers` still running from the final `curl_multi_perform` of the
retry loop, together with the `CURLMSG_DONE` messages it has queued. -/
structure StepEvent where
  num_transfers : Int
  msgs : List CurlMsg
deriving DecidableEq, Repr

/-- `step_slots` (http2.c): when the reported running-transfer count has
dropped below `active_requests`, some transfer finished — drain the messages
and run a cleanup pass; otherwise nothing observable changes. -/
def step_slots (s : PoolState) (ev : StepEvent) : PoolState :=
  if ev.num_transfers < s.active_requests then
    cleanup_slots (process_curl_messages s ev.msgs)
  else
    s

/-- `run_slot` (http2.c): `while (!slot->finished) { step_slots(); ...select
wait... }`.  The select/timeout logic affects no modelled state; each loop
iteration consumes the next `StepEvent` from the environment.  `none` means
the environment trace is exhausted with the slot still unfinished, i.e. the C
loop has not returned within the trace. -/
def run_slot (i : Nat) : List StepEvent → PoolState → Option PoolState
  | sched, s =>
    if (slotAt s i).finished then
      some s
    else
      match sched with
      | [] => none
      | ev :: rest => run_slot i rest (step_slots s ev)

/-- Modelled from the spec: the distinguished start-failure sentinel
`HTTP_START_FAILED` returned by `http_request` is not defined in the provided
sources (`http2.c` only returns it); it is modelled as `-1`, distinct from
every nonnegative libcurl `CURLcode`. -/
def HTTP_START_FAILED : Int := -1

/-- The libcurl behaviour visible to one `http_request` call: the result of
`curl_multi_add_handle` and the per-iteration step events. -/
structure HttpEnv where
  addResult : Int
  sched : List StepEvent
deriving DecidableEq, Repr

/-- `http_request` (http2.c), scheduling part: acquire a slot, configure the
handle (modelled separately by `build_opts`, no effect on pool state), start
it, and on success run the wait loop and return the slot's recorded
`curl_result`; on registration failure return `HTTP_START_FAILED` at once.
`none` means the call has not returned within the environment trace. -/
def http_request (s : PoolState) (env : HttpEnv) : Option (Int × PoolState) :=
  match start_slot env.addResult (get_slot s).1 (get_slot s).2 with
  | (false, s2) => some (HTTP_START_FAILED, s2)
  | (true, s2) =>
    match run_slot (get_slot s).1 env.sched s2 with
    | none => none
    | some s3 => some ((slotAt s3 (get_slot s).1).curl_result, s3)

/-! ## Handle configuration (`curl_easy_setopt` calls of `http_request`)

The options set on the acquired slot's handle are modelled as an ordered
assignment list of symbolic option/value pairs; curl retains, for each
option, the value of the last assignment. -/

inductive COpt
  | URL | HTTPGET | NOBODY | POST | HTTPHEADER | HEADERFUNCTION | HEADERDATA
  | READFUNCTION | READDATA | WRITEFUNCTION | WRITEDATA
  | POSTFIELDS | POSTFIELDSIZE_LARGE
deriving DecidableEq, Repr

/-- Symbolic values passed to `curl_easy_setopt`: callback functions defined
in http2.c, fields of the request (`req...`) and response (`res...`)
descriptors, and the constants that appear in the calls. -/
inductive CVal
  | reqUrl | longOne | headerList
  | fwrite_headers_fn | resHeadersPtr
  | fread_null_fn | fread_fn | fread_strbuf_fn
  | fwrite_null_fn | fwrite_fn | fwrite_strbuf_fn
  | reqCallbackFn | reqCallbackData
  | resCallbackFn | resCallbackData
  | reqFilePtr | resFilePtr
  | reqStrbufPtr | resStrbufPtr
  | postFieldsData | postFieldsLen
deriving DecidableEq, Repr

inductive HttpMethod | GET | HEAD | POST
deriving DecidableEq, Repr

inductive HttpDataType | NONE | CALLBACK | FILE | STRBUF | POSTFIELDS
deriving DecidableEq, Repr

/-- The fields of `struct http_request` that select which `curl_easy_setopt`
calls are made (the pointer-valued fields appear only as the symbolic `CVal`s
above; `no_cache`, `content_type` and the extra headers feed the
`curl_slist` and not the option list). -/
structure HttpRequestDesc where
  method : HttpMethod
  data_type : HttpDataType
deriving DecidableEq, Repr

/-- The fields of `struct http_response` that select `curl_easy_setopt`
calls. -/
structure HttpResponseDesc where
  data_type : HttpDataType
  has_headers : Bool
deriving DecidableEq, Repr

/-- The `curl_easy_setopt` calls issued by `http_request`, in program order.
`none` is the `BUG("unsupported HTTP data type")` abort, reached when the
response descriptor carries the `POSTFIELDS` shape (the response switch has
no case for it).  The request-content `HTTP_DATA_FILE` case is transcribed
exactly as written in the source: it sets `CURLOPT_READFUNCTION` twice —
first to `fread`, then to `res->data.file` — and never sets
`CURLOPT_READDATA`. -/
def build_opts (req : HttpRequestDesc) (res : HttpResponseDesc) :
    Option (List (COpt × CVal)) :=
  let methodOpts : List (COpt × CVal) :=
    match req.method with
    | .GET => [(COpt.HTTPGET, CVal.longOne)]
    | .HEAD => [(COpt.NOBODY, CVal.longOne)]
    | .POST => [(COpt.POST, CVal.longOne)]
  let headerOpts : List (COpt × CVal) :=
    if res.has_headers then
      [(COpt.HEADERFUNCTION, CVal.fwrite_headers_fn), (COpt.HEADERDATA, CVal.resHeadersPtr)]
    else []
  let readOpts : List (COpt × CVal) :=
    match req.data_type with
    | .NONE => [(COpt.READFUNCTION, CVal.fread_null_fn)]
    | .CALLBACK => [(COpt.READFUNCTION, CVal.reqCallbackFn), (COpt.READDATA, CVal.reqCallbackData)]
    | .FILE => [(COpt.READFUNCTION, CVal.fread_fn), (COpt.READFUNCTION, CVal.resFilePtr)]
    | .STRBUF => [(COpt.READFUNCTION, CVal.fread_strbuf_fn), (COpt.READDATA, CVal.reqStrbufPtr)]
    | .POSTFIELDS => [(COpt.POSTFIELDS, CVal.postFieldsData),
                      (COpt.POSTFIELDSIZE_LARGE, CVal.postFieldsLen)]
  match res.data_type with
  | .POSTFIELDS => none
  | rdt =>
    let writeOpts : List (COpt × CVal) :=
      match rdt with
      | .NONE => [(COpt.WRITEFUNCTION, CVal.fwrite_null_fn)]
      | .CALLBACK => [(COpt.WRITEFUNCTION, CVal.resCallbackFn), (COpt.WRITEDATA, CVal.resCallbackData)]
      | .FILE => [(COpt.WRITEFUNCTION, CVal.fwrite_fn), (COpt.WRITEDATA, CVal.resFilePtr)]
      | .STRBUF => [(COpt.WRITEFUNCTION, CVal.fwrite_strbuf_fn), (COpt.WRITEDATA, CVal.resStrbufPtr)]
      | .POSTFIELDS => []
    some ([(COpt.URL, CVal.reqUrl)] ++ methodOpts ++ [(COpt.HTTPHEADER, CVal.headerList)]
          ++ headerOpts ++ readOpts ++ writeOpts)

/-- The value curl retains for option `o` after the assignment list `l`: the
last value assigned, if any. -/
def effective_opt (l : List (COpt × CVal)) (o : COpt) : Option CVal :=
  l.foldl (fun acc p => if p.1 = o then some p.2 else acc) none

/-! ## Header-capture theorems -/

/-- A line carrying the (case-insensitive) `http/` prefix does not start with
a space or horizontal tab, hence is not a continuation line. -/
lemma status_line_not_continuation (l : List Char)
    (h : skip_iprefix_mem l ("http/".data) = true) : is_hdr_continuation l = false := by
  cases l with
  | nil => rfl
  | cons c cs =>
    have e : ("http/".data) = 'h' :: 't' :: 't' :: 'p' :: '/' :: [] := rfl
    rw [e] at h
    simp only [skip_iprefix_mem, Bool.and_eq_true, decide_eq_true_eq] at h
    have hd : tolower c = tolower 'h' := h.1
    by_contra hcont
    simp only [is_hdr_continuation, Bool.not_eq_false, Bool.or_eq_true,
      decide_eq_true_eq] at hcont
    rcases hcont with h1 | h1 <;> subst h1 <;> exact absurd hd (by decide)

/-- C5: feeding the header-capture function the raw lines
`["HTTP/1.1 200 OK", "X-A: foo", " bar", "X-B: baz"]`, starting from an empty
capture list, yields exactly the captured headers
`["X-A: foo bar", "X-B: baz"]` in that order. -/
theorem header_lines_folding :
    header_lines [] ["HTTP/1.1 200 OK", "X-A: foo", " bar", "X-B: baz"]
      = some ["X-A: foo bar", "X-B: baz"] := by decide

/-- C6: for every capture-list state, a line with a case-insensitive `HTTP/`
prefix clears the accumulator; consequently the redirect sequence
`["HTTP/1.1 301 Moved", "Location: /x"]` followed by
`["HTTP/1.1 200 OK", "X-A: 1"]` leaves exactly `["X-A: 1"]`: only the final
hop's headers survive. -/
theorem fwrite_headers_redirect_reset :
    (∀ (values : List String) (line : String),
        skip_iprefix_mem line.data ("http/".data) = true →
        fwrite_headers values line = some []) ∧
    header_lines [] ["HTTP/1.1 301 Moved", "Location: /x", "HTTP/1.1 200 OK", "X-A: 1"]
      = some ["X-A: 1"] := by
  constructor
  · intro values line h
    simp [fwrite_headers, h]
  · decide

/-- Witness for C6 at a concrete input: a status line processed against a
non-empty capture list clears it. -/
theorem fwrite_headers_redirect_reset_witness :
    fwrite_headers ["Location: /x"] "HTTP/1.1 200 OK" = some [] :=
  fwrite_headers_redirect_reset.1 ["Location: /x"] "HTTP/1.1 200 OK" (by decide)

/-- C7: the header-capture function reaches the defect branch (`BUG(...)`,
modelled as `none`) exactly on a continuation line processed with an empty
accumulator; on every other line, and on a continuation line with at least
one captured value, the defect branch is unreachable. -/
theorem fwrite_headers_abort_iff :
    ∀ (values : List String) (line : String),
      fwrite_headers values line = none ↔
        (is_hdr_continuation line.data = true ∧ values = []) := by
  intro values line
  by_cases hp : skip_iprefix_mem line.data ("http/".data) = true
  · have hc := status_line_not_continuation line.data hp
    simp [fwrite_headers, hp, hc]
  · by_cases hcont : is_hdr_continuation line.data = true
    · cases hv : values.reverse with
      | nil =>
        have hvals : values = [] := by simpa using congrArg List.reverse hv
        simp [fwrite_headers, hp, hcont, hv, hvals]
      | cons prev rest =>
        have hvals : values ≠ [] := by
          intro e
          rw [e] at hv
          simp at hv
        simp only [fwrite_headers, hp, if_false, Bool.false_eq_true, hcont, if_true, hv]
        split <;> simp [hvals]
    · simp [fwrite_headers, hp, hcont]

/-- Witness for C7 at a concrete input: a continuation line against an empty
accumulator aborts. -/
theorem fwrite_headers_abort_iff_witness :
    fwrite_headers [] " bar" = none :=
  (fwrite_headers_abort_iff [] " bar").mpr (by decide)

/-! ## Buffer-drain theorems (`fread_strbuf`) -/

lemma fread_strbuf_take_drop (cap : Nat) (buf : List α) :
    (fread_strbuf cap buf).1 = buf.take (min cap buf.length) ∧
    (fread_strbuf cap buf).2 = buf.drop (min cap buf.length) := by
  unfold fread_strbuf
  rcases Nat.le_total cap buf.length with h | h
  · rw [Nat.min_eq_left h]
    constructor <;> simp [Nat.not_lt.mpr h]
  · rw [Nat.min_eq_right h]
    rcases Nat.lt_or_ge buf.length cap with h2 | h2
    · constructor <;> simp [h2]
    · have : cap = buf.length := Nat.le_antisymm h2 h
      subst this
      constructor <;> simp

lemma fread_strbuf_drain_split (caps : List Nat) (buf : List α) :
    (fread_strbuf_drain caps buf).1 ++ (fread_strbuf_drain caps buf).2 = buf := by
  induction caps generalizing buf with
  | nil => simp [fread_strbuf_drain]
  | cons c cs ih =>
    simp only [fread_strbuf_drain, List.append_assoc, ih]
    exact List.take_append_drop _ buf

lemma fread_strbuf_drain_empty (caps : List Nat) :
    fread_strbuf_drain caps ([] : List α) = ([], []) := by
  induction caps with
  | nil => rfl
  | cons c cs ih => simp [fread_strbuf_drain, fread_strbuf, ih]

lemma fread_strbuf_drain_exhaust (caps : List Nat) (buf : List α)
    (h : buf.length ≤ caps.sum) : (fread_strbuf_drain caps buf).2 = [] := by
  induction caps generalizing buf with
  | nil =>
    simp only [List.sum_nil, Nat.le_zero, List.length_eq_zero] at h
    subst h
    rfl
  | cons c cs ih =>
    simp only [fread_strbuf_drain]
    rcases Nat.le_total buf.length c with hcl | hcl
    · have hdrop : (fread_strbuf c buf).2 = [] := by
        rw [(fread_strbuf_take_drop c buf).2, Nat.min_eq_right hcl, List.drop_length]
      rw [hdrop, fread_strbuf_drain_empty]
    · have hdrop : (fread_strbuf c buf).2 = buf.drop c := by
        rw [(fread_strbuf_take_drop c buf).2, Nat.min_eq_left hcl]
      rw [hdrop]
      apply ih
      rw [List.length_drop]
      simp only [List.sum_cons] at h
      omega

/-- C8: each `fread_strbuf` call hands curl at most the remaining buffer
length (and at most the requested capacity), removing exactly the returned
prefix from the front of the caller-owned buffer; iterating calls whose
capacities cover the buffer transmits exactly the original bytes in order
and leaves the buffer empty. -/
theorem fread_strbuf_buffer_drain :
    ∀ (α : Type) (cap : Nat) (buf : List α) (caps : List Nat),
      (fread_strbuf cap buf).1.length ≤ buf.length ∧
      (fread_strbuf cap buf).1.length ≤ cap ∧
      (fread_strbuf cap buf).1 ++ (fread_strbuf cap buf).2 = buf ∧
      (fread_strbuf_drain caps buf).1 ++ (fread_strbuf_drain caps buf).2 = buf ∧
      (buf.length ≤ caps.sum →
        (fread_strbuf_drain caps buf).1 = buf ∧ (fread_strbuf_drain caps buf).2 = []) := by
  intro α cap buf caps
  obtain ⟨h1, h2⟩ := fread_strbuf_take_drop cap buf
  refine ⟨?_, ?_, ?_, fread_strbuf_drain_split caps buf, ?_⟩
  · rw [h1]
    simp [List.length_take]
  · rw [h1, List.length_take]
    exact le_trans (Nat.min_le_left _ _) (Nat.min_le_left _ _)
  · rw [h1, h2]
    exact List.take_append_drop _ buf
  · intro hcov
    have he := fread_strbuf_drain_exhaust caps buf hcov
    have hs := fread_strbuf_drain_split caps buf
    rw [he, List.append_nil] at hs
    exact ⟨hs, he⟩

/-- Witness for C8: draining `[1, 2, 3]` with two reads of capacity 2
transmits the three bytes in order and empties the buffer. -/
theorem fread_strbuf_buffer_drain_witness :
    (fread_strbuf_drain [2, 2] [1, 2, 3]).1 = [1, 2, 3] ∧
    (fread_strbuf_drain [2, 2] ([1, 2, 3] : List Nat)).2 = [] :=
  (fread_strbuf_buffer_drain Nat 2 [1, 2, 3] [2, 2]).2.2.2.2 (by decide)

/-! ## Concrete scheduler scenarios

`pool0` is the scheduler state at process start: no slots, no sessions,
`min_curl_sessions = 1`, no active requests. -/

def pool0 : PoolState := ⟨[], 0, 1, 0, 0⟩

/-- The pool after one successful request on a fresh scheduler (acquired
slot 0 with handle 0, transfer completed with `CURLcode` 7, handle retained
by the cleanup pass since the session count equals the floor). -/
def pool_after_first : PoolState := ⟨[⟨false, true, some 0, 7⟩], 1, 1, 0, 1⟩

/-- C2 evaluation: `get_slot` never writes `finished`.  Running one request
to completion on a fresh scheduler leaves the slot with `finished = 1`, and
reacquiring that slot returns it still carrying `finished = 1` (the remaining
fields behave as the claim says: `in_use = 1`, `curl_result` cleared,
`active_requests` incremented by one). -/
theorem get_slot_stale_finished :
    http_request pool0 ⟨CURLM_OK, [⟨0, [⟨0, 7⟩]⟩]⟩ = some (7, pool_after_first) ∧
    (slotAt (get_slot pool_after_first).2 (get_slot pool_after_first).1).finished = true ∧
    (slotAt (get_slot pool_after_first).2 (get_slot pool_after_first).1).in_use = true ∧
    (slotAt (get_slot pool_after_first).2 (get_slot pool_after_first).1).curl_result = 0 ∧
    (get_slot pool_after_first).2.active_requests = pool_after_first.active_requests + 1 := by
  decide

/-- The state in which the second `http_request` of
`http_request_not_synchronous_on_reuse` returns: the reacquired slot is
still `in_use = 1` with its cleared result `0`, and the transfer just
registered with the multi handle is still counted in `active_requests`. -/
def pool_stale_return : PoolState := ⟨[⟨true, true, some 0, 0⟩], 1, 1, 1, 1⟩

/-- C1 evaluation: `http_request` is not synchronous on a reacquired slot.
Running one request to completion on a fresh scheduler reaches
`pool_after_first`; a second `http_request` there, with successful
registration and an empty schedule — the environment delivers no completion
message and the wait loop consumes no step — nevertheless returns result `0`
(`CURLE_OK`).  In the returned state the slot is still `in_use = 1` and
`active_requests = 1`: the new transfer has not completed, and the returned
value was never recorded by any drained completion message (none exist); it
is the value `get_slot` cleared `curl_result` to.  The wait loop never runs
because `get_slot` left the stale `finished = 1` in place (the C2 defect). -/
theorem http_request_not_synchronous_on_reuse :
    http_request pool0 ⟨CURLM_OK, [⟨0, [⟨0, 7⟩]⟩]⟩ = some (7, pool_after_first) ∧
    http_request pool_after_first ⟨CURLM_OK, []⟩ = some (0, pool_stale_return) ∧
    pool_stale_return.active_requests = 1 ∧
    (slotAt pool_stale_return 0).in_use = true := by
  decide

/-- The pool reached from a fresh scheduler by: acquire (slot 0, handle 0),
acquire (slot 1, handle 1), then complete slot 0's transfer — slot 0 idle
ahead of the still-in-flight slot 1. -/
def poolC3 : PoolState :=
  process_curl_messages (get_slot (get_slot pool0).2).2 [⟨0, 0⟩]

/-- C3 evaluation: `get_slot` sets the acquired slot's `next` pointer to
`NULL`.  After acquiring two slots and completing the first transfer, the
pool holds the idle slot 0 ahead of the still-in-flight slot 1 (handle 1);
the next acquire reuses slot 0 and truncates the list behind it, so the pool
shrinks from two slots to one and the in-flight slot with handle 1 is no
longer reachable from the list head. -/
theorem get_slot_truncates_pool :
    poolC3.slots.length = 2 ∧
    (slotAt poolC3 1).in_use = true ∧
    (slotAt poolC3 1).curl = some 1 ∧
    (get_slot poolC3).2.slots.length = 1 ∧
    (∀ sl ∈ (get_slot poolC3).2.slots, sl.curl ≠ some 1) := by
  decide

/-- C4 evaluation: for a request whose body is the file-stream shape, the
configuration ends with `CURLOPT_READFUNCTION` holding the response
descriptor's `FILE` pointer (`res->data.file`, overwriting the first
assignment of `fread`) and `CURLOPT_READDATA` never assigned — the body is
not wired to read from the request descriptor's stream.  This holds for
every method and every response shape the code accepts. -/
theorem http_request_file_body_miswired :
    ∀ (m : HttpMethod) (res : HttpResponseDesc),
      (build_opts ⟨m, HttpDataType.FILE⟩ res).map
          (fun l => (effective_opt l COpt.READFUNCTION, effective_opt l COpt.READDATA))
        = (build_opts ⟨m, HttpDataType.FILE⟩ res).map
          (fun _ => (some CVal.resFilePtr, (none : Option CVal))) := by
  intro m res
  cases res with
  | mk dt hh => cases m <;> cases dt <;> cases hh <;> rfl

/-! ## Slot-list access lemmas -/

lemma nthSlot_nil (i : Nat) : nthSlot [] i = default := rfl

lemma nthSlot_cons_zero (sl : Slot) (rest : List Slot) : nthSlot (sl :: rest) 0 = sl := rfl

lemma nthSlot_cons_succ (sl : Slot) (rest : List Slot) (i : Nat) :
    nthSlot (sl :: rest) (i + 1) = nthSlot rest i := rfl

lemma nthSlot_beyond (l : List Slot) (i : Nat) (h : l.length ≤ i) :
    nthSlot l i = default := by
  induction l generalizing i with
  | nil => rfl
  | cons sl rest ih =>
    cases i with
    | zero => simp at h
    | succ j => exact ih j (Nat.le_of_succ_le_succ h)

lemma nthSlot_set_self (l : List Slot) (i : Nat) (x : Slot) (h : i < l.length) :
    nthSlot (l.set i x) i = x := by
  induction l generalizing i with
  | nil => simp at h
  | cons sl rest ih =>
    cases i with
    | zero => rfl
    | succ j => exact ih j (Nat.lt_of_succ_lt_succ h)

lemma nthSlot_set_ne (l : List Slot) (i j : Nat) (x : Slot) (h : i ≠ j) :
    nthSlot (l.set i x) j = nthSlot l j := by
  induction l generalizing i j with
  | nil => rfl
  | cons sl rest ih =>
    cases i with
    | zero =>
      cases j with
      | zero => exact absurd rfl h
      | succ j2 => rfl
    | succ i2 =>
      cases j with
      | zero => rfl
      | succ j2 => exact ih i2 j2 (fun e => h (by rw [e]))

lemma nthSlot_append_lt (l l2 : List Slot) (j : Nat) (h : j < l.length) :
    nthSlot (l ++ l2) j = nthSlot l j := by
  induction l generalizing j with
  | nil => simp at h
  | cons sl rest ih =>
    cases j with
    | zero => rfl
    | succ j2 => exact ih j2 (Nat.lt_of_succ_lt_succ h)

lemma nthSlot_append_self (l l2 : List Slot) :
    nthSlot (l ++ l2) l.length = nthSlot l2 0 := by
  induction l with
  | nil => rfl
  | cons sl rest ih => exact ih

lemma nthSlot_take_lt (l : List Slot) (i j : Nat) (h : j < i) :
    nthSlot (l.take i) j = nthSlot l j := by
  induction l generalizing i j with
  | nil => simp
  | cons sl rest ih =>
    cases i with
    | zero => simp at h
    | succ i2 =>
      cases j with
      | zero => rfl
      | succ j2 => exact ih i2 j2 (Nat.lt_of_succ_lt_succ h)

lemma nthSlot_take_append_self (l : List Slot) (i : Nat) (x : Slot) (h : i ≤ l.length) :
    nthSlot (l.take i ++ [x]) i = x := by
  have hlen : (l.take i).length = i := by
    rw [List.length_take]
    exact Nat.min_eq_left h
  calc nthSlot (l.take i ++ [x]) i
      = nthSlot (l.take i ++ [x]) (l.take i).length := by rw [hlen]
    _ = nthSlot [x] 0 := nthSlot_append_self _ _
    _ = x := rfl

lemma nthSlot_take_append_lt (l : List Slot) (i j : Nat) (x : Slot) (h : j < i)
    (hl : i ≤ l.length) :
    nthSlot (l.take i ++ [x]) j = nthSlot l j := by
  have hlen : (l.take i).length = i := by
    rw [List.length_take]
    exact Nat.min_eq_left hl
  rw [nthSlot_append_lt _ _ _ (by rw [hlen]; exact h)]
  exact nthSlot_take_lt l i j h

/-! ## `find_idle` characterization -/

lemma find_idle_cons_busy (sl : Slot) (rest : List Slot) (h : sl.in_use = true) :
    find_idle (sl :: rest) = (find_idle rest).map Nat.succ := by
  simp [find_idle, h]

lemma find_idle_cons_idle (sl : Slot) (rest : List Slot) (h : sl.in_use = false) :
    find_idle (sl :: rest) = some 0 := by
  simp [find_idle, h]

lemma find_idle_lt (l : List Slot) (i : Nat) (h : find_idle l = some i) : i < l.length := by
  induction l generalizing i with
  | nil => exact absurd h (by simp [find_idle])
  | cons sl rest ih =>
    by_cases hu : sl.in_use = true
    · rw [find_idle_cons_busy sl rest hu] at h
      rcases hfr : find_idle rest with _ | j
      · rw [hfr] at h
        simp at h
      · rw [hfr] at h
        simp only [Option.map_some'] at h
        cases h
        exact Nat.succ_lt_succ (ih j hfr)
    · rw [find_idle_cons_idle sl rest (by simpa using hu)] at h
      cases h
      exact Nat.succ_pos _

lemma find_idle_idle (l : List Slot) (i : Nat) (h : find_idle l = some i) :
    (nthSlot l i).in_use = false := by
  induction l generalizing i with
  | nil => exact absurd h (by simp [find_idle])
  | cons sl rest ih =>
    by_cases hu : sl.in_use = true
    · rw [find_idle_cons_busy sl rest hu] at h
      rcases hfr : find_idle rest with _ | j
      · rw [hfr] at h
        simp at h
      · rw [hfr] at h
        simp only [Option.map_some'] at h
        cases h
        exact ih j hfr
    · have hu2 : sl.in_use = false := by simpa using hu
      rw [find_idle_cons_idle sl rest hu2] at h
      cases h
      exact hu2

lemma find_idle_before (l : List Slot) (i : Nat) (h : find_idle l = some i) :
    ∀ j, j < i → (nthSlot l j).in_use = true := by
  induction l generalizing i with
  | nil => exact absurd h (by simp [find_idle])
  | cons sl rest ih =>
    by_cases hu : sl.in_use = true
    · rw [find_idle_cons_busy sl rest hu] at h
      rcases hfr : find_idle rest with _ | k
      · rw [hfr] at h
        simp at h
      · rw [hfr] at h
        simp only [Option.map_some'] at h
        cases h
        intro j hj
        cases j with
        | zero => exact hu
        | succ j2 => exact ih k hfr j2 (Nat.lt_of_succ_lt_succ hj)
    · rw [find_idle_cons_idle sl rest (by simpa using hu)] at h
      cases h
      intro j hj
      simp at hj

lemma find_idle_none (l : List Slot) (h : find_idle l = none) :
    ∀ j, j < l.length → (nthSlot l j).in_use = true := by
  induction l with
  | nil => intro j hj; simp at hj
  | cons sl rest ih =>
    by_cases hu : sl.in_use = true
    · rw [find_idle_cons_busy sl rest hu] at h
      have hr : find_idle rest = none := by
        rcases hfr : find_idle rest with _ | j
        · rfl
        · rw [hfr] at h
          simp at h
      intro j hj
      cases j with
      | zero => exact hu
      | succ j2 => exact ih hr j2 (Nat.lt_of_succ_lt_succ hj)
    · rw [find_idle_cons_idle sl rest (by simpa using hu)] at h
      cases h

lemma find_idle_of (l : List Slot) (i : Nat) (hlt : i < l.length)
    (hbusy : ∀ j, j < i → (nthSlot l j).in_use = true)
    (hidle : (nthSlot l i).in_use = false) : find_idle l = some i := by
  induction l generalizing i with
  | nil => simp at hlt
  | cons sl rest ih =>
    cases i with
    | zero => exact find_idle_cons_idle sl rest hidle
    | succ i2 =>
      have h0 : sl.in_use = true := hbusy 0 (Nat.succ_pos _)
      have hrec : find_idle rest = some i2 :=
        ih i2 (Nat.lt_of_succ_lt_succ hlt)
          (fun j hj => hbusy (j + 1) (Nat.succ_lt_succ hj)) hidle
      rw [find_idle_cons_busy sl rest h0, hrec]
      rfl

/-! ## `get_slot` facts -/

lemma nthSlot_mem (l : List Slot) (i : Nat) (h : i < l.length) : nthSlot l i ∈ l := by
  induction l generalizing i with
  | nil => simp at h
  | cons sl rest ih =>
    cases i with
    | zero => exact List.mem_cons_self _ _
    | succ j => exact List.mem_cons_of_mem _ (ih j (Nat.lt_of_succ_lt_succ h))

lemma get_slot_core_none (s : PoolState) (i : Nat) (slots0 : List Slot)
    (hc : (nthSlot slots0 i).curl = none) :
    get_slot_core s i slots0
      = (i, ⟨slots0.take i ++ [⟨true, (nthSlot slots0 i).finished, some s.next_handle, 0⟩],
             s.curl_session_count + 1, s.min_curl_sessions,
             s.active_requests + 1, s.next_handle + 1⟩) := by
  unfold get_slot_core
  rw [hc]

lemma get_slot_core_some (s : PoolState) (i : Nat) (slots0 : List Slot) (hh : Nat)
    (hc : (nthSlot slots0 i).curl = some hh) :
    get_slot_core s i slots0
      = (i, ⟨slots0.take i ++ [⟨true, (nthSlot slots0 i).finished, some hh, 0⟩],
             s.curl_session_count, s.min_curl_sessions,
             s.active_requests + 1, s.next_handle⟩) := by
  unfold get_slot_core
  rw [hc]

lemma get_slot_core_fst (s : PoolState) (i : Nat) (slots0 : List Slot) :
    (get_slot_core s i slots0).1 = i := by
  rcases hc : (nthSlot slots0 i).curl with _ | hh
  · rw [get_slot_core_none s i slots0 hc]
  · rw [get_slot_core_some s i slots0 hh hc]

lemma get_slot_core_active (s : PoolState) (i : Nat) (slots0 : List Slot) :
    (get_slot_core s i slots0).2.active_requests = s.active_requests + 1 := by
  rcases hc : (nthSlot slots0 i).curl with _ | hh
  · rw [get_slot_core_none s i slots0 hc]
  · rw [get_slot_core_some s i slots0 hh hc]

lemma get_slot_core_slot (s : PoolState) (i : Nat) (slots0 : List Slot)
    (h : i ≤ slots0.length) :
    ∃ hh : Nat,
      slotAt (get_slot_core s i slots0).2 i
        = ⟨true, (nthSlot slots0 i).finished, some hh, 0⟩ := by
  rcases hc : (nthSlot slots0 i).curl with _ | hh
  · refine ⟨s.next_handle, ?_⟩
    rw [get_slot_core_none s i slots0 hc]
    exact nthSlot_take_append_self _ _ _ h
  · refine ⟨hh, ?_⟩
    rw [get_slot_core_some s i slots0 hh hc]
    exact nthSlot_take_append_self _ _ _ h

lemma get_slot_core_len (s : PoolState) (i : Nat) (slots0 : List Slot)
    (h : i ≤ slots0.length) :
    (get_slot_core s i slots0).2.slots.length = i + 1 := by
  rcases hc : (nthSlot slots0 i).curl with _ | hh
  · rw [get_slot_core_none s i slots0 hc]
    simp [List.length_take, Nat.min_eq_left h]
  · rw [get_slot_core_some s i slots0 hh hc]
    simp [List.length_take, Nat.min_eq_left h]

lemma get_slot_core_before (s : PoolState) (i : Nat) (slots0 : List Slot)
    (h : i ≤ slots0.length) :
    ∀ j, j < i → slotAt (get_slot_core s i slots0).2 j = nthSlot slots0 j := by
  intro j hj
  rcases hc : (nthSlot slots0 i).curl with _ | hh
  · rw [get_slot_core_none s i slots0 hc]
    exact nthSlot_take_append_lt _ _ _ _ hj h
  · rw [get_slot_core_some s i slots0 hh hc]
    exact nthSlot_take_append_lt _ _ _ _ hj h

/-- The acquire step, case analysis packaged once: the working list on which
`get_slot_core` operates (the original list, or the original list with a
fresh slot appended) and what is known about the chosen index in it. -/
lemma get_slot_destructure (s : PoolState) :
    ∃ slots0 : List Slot,
      (get_slot s).1 ≤ slots0.length ∧
      get_slot s = get_slot_core s (get_slot s).1 slots0 ∧
      (nthSlot slots0 (get_slot s).1).in_use = false ∧
      (∀ j, j < (get_slot s).1 → (nthSlot slots0 j).in_use = true) ∧
      (∀ j, j < (get_slot s).1 → nthSlot slots0 j = nthSlot s.slots j) ∧
      ((nthSlot slots0 (get_slot s).1 ∈ s.slots) ∨ nthSlot slots0 (get_slot s).1 = new_slot) := by
  unfold get_slot
  rcases hfi : find_idle s.slots with _ | i
  · refine ⟨s.slots ++ [new_slot], ?_, ?_, ?_, ?_, ?_, ?_⟩
    · rw [get_slot_core_fst]
      simp
    · rw [get_slot_core_fst]
    · rw [get_slot_core_fst, nthSlot_append_self]
      rfl
    · intro j hj
      rw [get_slot_core_fst] at hj
      rw [nthSlot_append_lt _ _ _ hj]
      exact find_idle_none s.slots hfi j hj
    · intro j hj
      rw [get_slot_core_fst] at hj
      exact nthSlot_append_lt _ _ _ hj
    · right
      rw [get_slot_core_fst, nthSlot_append_self]
      rfl
  · have hlt := find_idle_lt s.slots i hfi
    refine ⟨s.slots, ?_, ?_, ?_, ?_, ?_, ?_⟩
    · rw [get_slot_core_fst]
      exact le_of_lt hlt
    · rw [get_slot_core_fst]
    · rw [get_slot_core_fst]
      exact find_idle_idle s.slots i hfi
    · intro j hj
      rw [get_slot_core_fst] at hj
      exact find_idle_before s.slots i hfi j hj
    · intro j _
      rfl
    · left
      rw [get_slot_core_fst]
      exact nthSlot_mem s.slots i hlt

lemma get_slot_active (s : PoolState) :
    (get_slot s).2.active_requests = s.active_requests + 1 := by
  obtain ⟨slots0, _, heq, _⟩ := get_slot_destructure s
  rw [show (get_slot s).2 = (get_slot_core s (get_slot s).1 slots0).2 from
        congrArg Prod.snd heq]
  exact get_slot_core_active _ _ _

lemma get_slot_len (s : PoolState) :
    (get_slot s).2.slots.length = (get_slot s).1 + 1 := by
  obtain ⟨slots0, hle, heq, _⟩ := get_slot_destructure s
  rw [show (get_slot s).2 = (get_slot_core s (get_slot s).1 slots0).2 from
        congrArg Prod.snd heq]
  exact get_slot_core_len _ _ _ hle

lemma get_slot_acquired (s : PoolState) :
    ∃ hh : Nat,
      (slotAt (get_slot s).2 (get_slot s).1).in_use = true ∧
      (slotAt (get_slot s).2 (get_slot s).1).curl = some hh ∧
      (slotAt (get_slot s).2 (get_slot s).1).curl_result = 0 := by
  obtain ⟨slots0, hle, heq, _⟩ := get_slot_destructure s
  have h2 : (get_slot s).2 = (get_slot_core s (get_slot s).1 slots0).2 :=
    congrArg Prod.snd heq
  obtain ⟨hh, hsl⟩ := get_slot_core_slot s (get_slot s).1 slots0 hle
  refine ⟨hh, ?_, ?_, ?_⟩ <;> rw [show slotAt (get_slot s).2 (get_slot s).1
      = slotAt (get_slot_core s (get_slot s).1 slots0).2 (get_slot s).1 from by rw [← h2], hsl]

lemma get_slot_finished (s : PoolState)
    (hIdle : ∀ sl ∈ s.slots, sl.in_use = false → sl.finished = false) :
    (slotAt (get_slot s).2 (get_slot s).1).finished = false := by
  obtain ⟨slots0, hle, heq, hidle, _, _, hmem⟩ := get_slot_destructure s
  have h2 : (get_slot s).2 = (get_slot_core s (get_slot s).1 slots0).2 :=
    congrArg Prod.snd heq
  obtain ⟨hh, hsl⟩ := get_slot_core_slot s (get_slot s).1 slots0 hle
  rw [show slotAt (get_slot s).2 (get_slot s).1
      = slotAt (get_slot_core s (get_slot s).1 slots0).2 (get_slot s).1 from by rw [← h2], hsl]
  show (nthSlot slots0 (get_slot s).1).finished = false
  rcases hmem with hmem | hnew
  · exact hIdle _ hmem hidle
  · rw [hnew]
    rfl

lemma get_slot_busy_lt (s : PoolState) :
    ∀ j, j < (get_slot s).1 → (slotAt (get_slot s).2 j).in_use = true := by
  obtain ⟨slots0, hle, heq, _, hbusy, _, _⟩ := get_slot_destructure s
  intro j hj
  have h2 : (get_slot s).2 = (get_slot_core s (get_slot s).1 slots0).2 :=
    congrArg Prod.snd heq
  rw [show slotAt (get_slot s).2 j
      = slotAt (get_slot_core s (get_slot s).1 slots0).2 j from by rw [← h2]]
  rw [get_slot_core_before s (get_slot s).1 slots0 hle j hj]
  exact hbusy j hj

/-! ## Cleanup-pass lemmas -/

lemma cleanup_go_length (floor : Int) (l : List Slot) (n : Int) :
    (cleanup_go floor l n).1.length = l.length := by
  induction l generalizing n with
  | nil => rfl
  | cons sl rest ih =>
    unfold cleanup_go
    split
    · simp [ih]
    · simp [ih]

/-- Pointwise effect of a cleanup pass on the slot list: each slot is either
unchanged, or (when idle) has only its handle destroyed. -/
lemma cleanup_go_elem (floor : Int) (l : List Slot) (n : Int) (i : Nat) :
    nthSlot (cleanup_go floor l n).1 i = nthSlot l i ∨
    (nthSlot (cleanup_go floor l n).1 i
        = ⟨(nthSlot l i).in_use, (nthSlot l i).finished, none, (nthSlot l i).curl_result⟩ ∧
      (nthSlot l i).in_use = false) := by
  induction l generalizing n i with
  | nil => left; rfl
  | cons sl rest ih =>
    unfold cleanup_go
    split
    · rename_i hguard
      cases i with
      | zero =>
        right
        exact ⟨rfl, hguard.1⟩
      | succ j => exact ih _ j
    · cases i with
      | zero => left; rfl
      | succ j => exact ih _ j

lemma cleanup_slots_flags (s : PoolState) (i : Nat) :
    (slotAt (cleanup_slots s) i).in_use = (slotAt s i).in_use ∧
    (slotAt (cleanup_slots s) i).finished = (slotAt s i).finished ∧
    (slotAt (cleanup_slots s) i).curl_result = (slotAt s i).curl_result := by
  rcases cleanup_go_elem s.min_curl_sessions s.slots s.curl_session_count i with h | ⟨h, _⟩ <;>
    rw [show slotAt (cleanup_slots s) i
          = nthSlot (cleanup_go s.min_curl_sessions s.slots s.curl_session_count).1 i from rfl, h] <;>
    exact ⟨rfl, rfl, rfl⟩

lemma cleanup_slots_in_use_eq (s : PoolState) (i : Nat)
    (h : (slotAt s i).in_use = true) : slotAt (cleanup_slots s) i = slotAt s i := by
  rcases cleanup_go_elem s.min_curl_sessions s.slots s.curl_session_count i with h2 | ⟨_, h3⟩
  · exact h2
  · have h4 : (nthSlot s.slots i).in_use = true := h
    rw [h4] at h3
    cases h3

lemma cleanup_slots_active (s : PoolState) :
    (cleanup_slots s).active_requests = s.active_requests := rfl

lemma cleanup_slots_floor_eq (s : PoolState) :
    (cleanup_slots s).min_curl_sessions = s.min_curl_sessions := rfl

lemma cleanup_go_count_le (floor : Int) (l : List Slot) (n : Int) :
    (cleanup_go floor l n).2 ≤ n := by
  induction l generalizing n with
  | nil => exact le_refl n
  | cons sl rest ih =>
    unfold cleanup_go
    split
    · have := ih (n - 1)
      simp only []
      omega
    · exact ih n

lemma cleanup_go_count_ge (floor : Int) (l : List Slot) (n : Int) :
    (cleanup_go floor l n).2 ≥ floor ∨ (cleanup_go floor l n).2 = n := by
  induction l generalizing n with
  | nil => right; rfl
  | cons sl rest ih =>
    unfold cleanup_go
    split
    · rename_i hguard
      rcases ih (n - 1) with h | h
      · left; exact h
      · left
        simp only []
        omega
    · exact ih n

lemma cleanup_go_idle_destroyed (floor : Int) (l : List Slot) (n : Int)
    (h : ∃ sl ∈ (cleanup_go floor l n).1, sl.in_use = false ∧ sl.curl ≠ none) :
    (cleanup_go floor l n).2 ≤ floor := by
  induction l generalizing n with
  | nil =>
    obtain ⟨sl, hmem, _⟩ := h
    simp [cleanup_go] at hmem
  | cons sl rest ih =>
    unfold cleanup_go at h ⊢
    by_cases hguard : sl.in_use = false ∧ sl.curl ≠ none ∧ n > floor
    · rw [if_pos hguard] at h
      rw [if_pos hguard]
      obtain ⟨sl2, hmem, hidle, hcurl⟩ := h
      rcases List.mem_cons.mp hmem with he | hmem2
      · rw [he] at hcurl
        exact absurd rfl hcurl
      · exact ih (n - 1) ⟨sl2, hmem2, hidle, hcurl⟩
    · rw [if_neg hguard] at h
      rw [if_neg hguard]
      obtain ⟨sl2, hmem, hidle, hcurl⟩ := h
      rcases List.mem_cons.mp hmem with he | hmem2
      · have hn : ¬ n > floor := by
          intro hgt
          rw [he] at hidle hcurl
          exact hguard ⟨hidle, hcurl, hgt⟩
        exact le_trans (cleanup_go_count_le floor rest n) (by omega)
      · exact ih n ⟨sl2, hmem2, hidle, hcurl⟩

/-! ## Completion-dispatch lemmas -/

lemma find_by_handle_lt (h0 : Nat) (l : List Slot) (j : Nat)
    (hf : find_by_handle h0 l = some j) : j < l.length := by
  induction l generalizing j with
  | nil => exact absurd hf (by simp [find_by_handle])
  | cons sl rest ih =>
    by_cases hc : sl.curl = some h0
    · simp only [find_by_handle, hc, if_pos] at hf
      cases hf
      exact Nat.succ_pos _
    · simp only [find_by_handle, hc, if_neg, if_false] at hf
      rcases hfr : find_by_handle h0 rest with _ | k
      · rw [hfr] at hf
        simp at hf
      · rw [hfr] at hf
        simp only [Option.map_some'] at hf
        cases hf
        exact Nat.succ_lt_succ (ih k hfr)

lemma find_by_handle_sound (h0 : Nat) (l : List Slot) (j : Nat)
    (hf : find_by_handle h0 l = some j) : (nthSlot l j).curl = some h0 := by
  induction l generalizing j with
  | nil => exact absurd hf (by simp [find_by_handle])
  | cons sl rest ih =>
    by_cases hc : sl.curl = some h0
    · simp only [find_by_handle, hc, if_pos] at hf
      cases hf
      exact hc
    · simp only [find_by_handle, hc, if_neg, if_false] at hf
      rcases hfr : find_by_handle h0 rest with _ | k
      · rw [hfr] at hf
        simp at hf
      · rw [hfr] at hf
        simp only [Option.map_some'] at hf
        cases hf
        exact ih k hfr

lemma slotAt_set_slot_self (s : PoolState) (i : Nat) (f : Slot → Slot)
    (h : i < s.slots.length) : slotAt (set_slot s i f) i = f (slotAt s i) :=
  nthSlot_set_self _ _ _ h

lemma slotAt_set_slot_ne (s : PoolState) (i j : Nat) (f : Slot → Slot)
    (h : i ≠ j) : slotAt (set_slot s i f) j = slotAt s j :=
  nthSlot_set_ne _ _ _ _ h

lemma process_message_at_eq (s : PoolState) (m : CurlMsg) (i : Nat)
    (hf : find_by_handle m.handle s.slots = some i) :
    slotAt (process_message s m) i = ⟨false, true, (slotAt s i).curl, m.result⟩ := by
  have hlt : i < s.slots.length := find_by_handle_lt m.handle s.slots i hf
  unfold process_message
  rw [hf]
  exact slotAt_set_slot_self _ _ _ hlt

lemma process_message_at_ne (s : PoolState) (m : CurlMsg) (i : Nat)
    (hne : find_by_handle m.handle s.slots ≠ some i) :
    slotAt (process_message s m) i = slotAt s i := by
  unfold process_message
  rcases hf : find_by_handle m.handle s.slots with _ | j
  · rfl
  · have hji : j ≠ i := fun e => hne (by rw [hf, e])
    exact slotAt_set_slot_ne _ _ _ _ hji

/-- A slot already completed stays completed through a message drain, its
handle stays, and its recorded result is either untouched or overwritten by
a further message carrying the same handle. -/
lemma process_curl_messages_cons (s : PoolState) (m : CurlMsg) (rest : List CurlMsg) :
    process_curl_messages s (m :: rest) = process_curl_messages (process_message s m) rest := rfl

lemma process_messages_done (i hdl : Nat) :
    ∀ (msgs : List CurlMsg) (s : PoolState),
      (slotAt s i).finished = true → (slotAt s i).in_use = false →
      (slotAt s i).curl = some hdl →
      (slotAt (process_curl_messages s msgs) i).finished = true ∧
      (slotAt (process_curl_messages s msgs) i).in_use = false ∧
      (slotAt (process_curl_messages s msgs) i).curl = some hdl ∧
      ((slotAt (process_curl_messages s msgs) i).curl_result = (slotAt s i).curl_result ∨
        ∃ m ∈ msgs, m.handle = hdl ∧
          m.result = (slotAt (process_curl_messages s msgs) i).curl_result) := by
  intro msgs
  induction msgs with
  | nil => exact fun s hf hu hc => ⟨hf, hu, hc, Or.inl rfl⟩
  | cons m rest ih =>
    intro s hf hu hc
    rw [process_curl_messages_cons]
    by_cases hfi : find_by_handle m.handle s.slots = some i
    · have hstep := process_message_at_eq s m i hfi
      have hhdl : m.handle = hdl := by
        have := find_by_handle_sound m.handle s.slots i hfi
        have hc2 : (nthSlot s.slots i).curl = some hdl := hc
        rw [hc2] at this
        exact (Option.some_inj.mp this).symm
      obtain ⟨h1, h2, h3, h4⟩ := ih (process_message s m)
        (by rw [hstep]) (by rw [hstep]) (by rw [hstep]; exact hc)
      refine ⟨h1, h2, h3, Or.inr ?_⟩
      rcases h4 with h4 | ⟨m2, hm2, hmh, hmr⟩
      · exact ⟨m, List.mem_cons_self _ _, hhdl, by rw [h4, hstep]⟩
      · exact ⟨m2, List.mem_cons_of_mem _ hm2, hmh, hmr⟩
    · have hstep := process_message_at_ne s m i hfi
      obtain ⟨h1, h2, h3, h4⟩ := ih (process_message s m)
        (by rw [hstep]; exact hf) (by rw [hstep]; exact hu) (by rw [hstep]; exact hc)
      refine ⟨h1, h2, h3, ?_⟩
      rcases h4 with h4 | ⟨m2, hm2, hmh, hmr⟩
      · exact Or.inl (by rw [h4, hstep])
      · exact Or.inr ⟨m2, List.mem_cons_of_mem _ hm2, hmh, hmr⟩

/-- A live (in-use, unfinished) slot is either untouched by a message drain,
or it is completed by a drained message carrying its handle, whose result is
the one recorded on the slot. -/
lemma process_messages_live (i hdl : Nat) :
    ∀ (msgs : List CurlMsg) (s : PoolState),
      (slotAt s i).in_use = true → (slotAt s i).finished = false →
      (slotAt s i).curl = some hdl →
      (slotAt (process_curl_messages s msgs) i = slotAt s i) ∨
      ((slotAt (process_curl_messages s msgs) i).finished = true ∧
        (slotAt (process_curl_messages s msgs) i).in_use = false ∧
        ∃ m ∈ msgs, m.handle = hdl ∧
          m.result = (slotAt (process_curl_messages s msgs) i).curl_result) := by
  intro msgs
  induction msgs with
  | nil => exact fun s _ _ _ => Or.inl rfl
  | cons m rest ih =>
    intro s hu hf hc
    rw [process_curl_messages_cons]
    by_cases hfi : find_by_handle m.handle s.slots = some i
    · have hstep := process_message_at_eq s m i hfi
      have hhdl : m.handle = hdl := by
        have := find_by_handle_sound m.handle s.slots i hfi
        have hc2 : (nthSlot s.slots i).curl = some hdl := hc
        rw [hc2] at this
        exact (Option.some_inj.mp this).symm
      obtain ⟨h1, h2, h3, h4⟩ := process_messages_done i hdl rest (process_message s m)
        (by rw [hstep]) (by rw [hstep]) (by rw [hstep]; exact hc)
      refine Or.inr ⟨h1, h2, ?_⟩
      rcases h4 with h4 | ⟨m2, hm2, hmh, hmr⟩
      · exact ⟨m, List.mem_cons_self _ _, hhdl, by rw [h4, hstep]⟩
      · exact ⟨m2, List.mem_cons_of_mem _ hm2, hmh, hmr⟩
    · have hstep := process_message_at_ne s m i hfi
      rcases ih (process_message s m)
        (by rw [hstep]; exact hu) (by rw [hstep]; exact hf) (by rw [hstep]; exact hc)
        with h | ⟨h1, h2, m2, hm2, hmh, hmr⟩
      · exact Or.inl (by rw [h, hstep])
      · exact Or.inr ⟨h1, h2, m2, List.mem_cons_of_mem _ hm2, hmh, hmr⟩

/-- One `step_slots` either leaves a live slot untouched, or completes it
with a drained message's result. -/
lemma step_slots_at (i hdl : Nat) (s : PoolState) (ev : StepEvent)
    (hu : (slotAt s i).in_use = true) (hf : (slotAt s i).finished = false)
    (hc : (slotAt s i).curl = some hdl) :
    (slotAt (step_slots s ev) i = slotAt s i) ∨
    ((slotAt (step_slots s ev) i).finished = true ∧
      ∃ m ∈ ev.msgs, m.handle = hdl ∧
        m.result = (slotAt (step_slots s ev) i).curl_result) := by
  unfold step_slots
  by_cases hguard : ev.num_transfers < s.active_requests
  · rw [if_pos hguard]
    rcases process_messages_live i hdl ev.msgs s hu hf hc
      with h | ⟨h1, h2, m, hm, hmh, hmr⟩
    · left
      rw [cleanup_slots_in_use_eq _ i (by rw [h]; exact hu), h]
    · right
      obtain ⟨hcu, hcf, hcr⟩ := cleanup_slots_flags (process_curl_messages s ev.msgs) i
      exact ⟨by rw [hcf]; exact h1, m, hm, hmh, by rw [hcr]; exact hmr⟩
  · rw [if_neg hguard]
    exact Or.inl rfl

/-- `run_slot` returns only with the slot finished, and the recorded result
is the result of a drained completion message for the slot's handle. -/
lemma run_slot_spec (i hdl : Nat) :
    ∀ (sched : List StepEvent) (s s' : PoolState),
      (slotAt s i).in_use = true → (slotAt s i).finished = false →
      (slotAt s i).curl = some hdl →
      run_slot i sched s = some s' →
      (slotAt s' i).finished = true ∧
      ∃ ev ∈ sched, ∃ m ∈ ev.msgs, m.handle = hdl ∧
        m.result = (slotAt s' i).curl_result := by
  intro sched
  induction sched with
  | nil =>
    intro s s' hu hf hc hrun
    unfold run_slot at hrun
    rw [hf] at hrun
    simp at hrun
  | cons ev rest ih =>
    intro s s' hu hf hc hrun
    unfold run_slot at hrun
    rw [hf] at hrun
    simp only [Bool.false_eq_true, if_false] at hrun
    rcases step_slots_at i hdl s ev hu hf hc with hstep | ⟨hfin, m, hm, hmh, hmr⟩
    · obtain ⟨h1, ev2, hev2, m, hm, hmh, hmr⟩ := ih (step_slots s ev) s'
        (by rw [hstep]; exact hu) (by rw [hstep]; exact hf) (by rw [hstep]; exact hc) hrun
      exact ⟨h1, ev2, List.mem_cons_of_mem _ hev2, m, hm, hmh, hmr⟩
    · have hstop : run_slot i rest (step_slots s ev) = some (step_slots s ev) := by
        unfold run_slot
        rw [hfin]
        simp
      rw [hstop] at hrun
      cases hrun
      exact ⟨hfin, ev, List.mem_cons_self _ _, m, hm, hmh, hmr⟩

/-! ## `start_slot` / `http_request` reduction lemmas -/

lemma start_slot_fail (addResult : Int) (i : Nat) (s : PoolState)
    (h : addResult ≠ CURLM_OK ∧ addResult ≠ CURLM_CALL_MULTI_PERFORM) :
    start_slot addResult i s
      = (false, set_slot { s with active_requests := s.active_requests - 1 } i
          (fun sl => { sl with in_use := false })) := by
  unfold start_slot
  rw [if_pos h]

lemma start_slot_ok (addResult : Int) (i : Nat) (s : PoolState)
    (h : ¬(addResult ≠ CURLM_OK ∧ addResult ≠ CURLM_CALL_MULTI_PERFORM)) :
    start_slot addResult i s = (true, s) := by
  unfold start_slot
  rw [if_neg h]

lemma http_request_fail_eq (s : PoolState) (env : HttpEnv)
    (h : env.addResult ≠ CURLM_OK ∧ env.addResult ≠ CURLM_CALL_MULTI_PERFORM) :
    http_request s env
      = some (HTTP_START_FAILED,
          set_slot { (get_slot s).2 with
              active_requests := (get_slot s).2.active_requests - 1 } (get_slot s).1
            (fun sl => { sl with in_use := false })) := by
  unfold http_request
  rw [start_slot_fail _ _ _ h]

lemma http_request_ok_eq (s : PoolState) (env : HttpEnv)
    (h : ¬(env.addResult ≠ CURLM_OK ∧ env.addResult ≠ CURLM_CALL_MULTI_PERFORM)) :
    http_request s env
      = match run_slot (get_slot s).1 env.sched (get_slot s).2 with
        | none => none
        | some s3 => some ((slotAt s3 (get_slot s).1).curl_result, s3) := by
  unfold http_request
  rw [start_slot_ok _ _ _ h]

/-- The synchronous contract of `http_request`, provable only under the
hypothesis that no idle slot carries a stale `finished = 1` flag (the
hypothesis holds on a fresh scheduler but fails on every pool reached after
a completed request, because `get_slot` never clears `finished`; see
`http_request_not_synchronous_on_reuse` for the violation there).  Under it,
whenever the call returns a value: on registration failure it returns the
start-failure sentinel without consuming any step of the wait loop (the
result and final state are the same under the empty schedule); on
registration success the acquired slot has `finished = 1` in the final state
and the returned value is the slot's recorded `curl_result`, which is the
result carried by a drained completion message for the slot's handle. -/
lemma http_request_synchronous :
    ∀ (s : PoolState) (env : HttpEnv) (r : Int) (s' : PoolState),
      (∀ sl ∈ s.slots, sl.in_use = false → sl.finished = false) →
      http_request s env = some (r, s') →
      ((env.addResult ≠ CURLM_OK ∧ env.addResult ≠ CURLM_CALL_MULTI_PERFORM) →
        r = HTTP_START_FAILED ∧
        http_request s { addResult := env.addResult, sched := [] } = some (r, s')) ∧
      ((env.addResult = CURLM_OK ∨ env.addResult = CURLM_CALL_MULTI_PERFORM) →
        (slotAt s' (get_slot s).1).finished = true ∧
        r = (slotAt s' (get_slot s).1).curl_result ∧
        ∃ ev ∈ env.sched, ∃ m ∈ ev.msgs,
          some m.handle = (slotAt (get_slot s).2 (get_slot s).1).curl ∧ m.result = r) := by
  intro s env r s' hIdle hreq
  by_cases hbad : env.addResult ≠ CURLM_OK ∧ env.addResult ≠ CURLM_CALL_MULTI_PERFORM
  · rw [http_request_fail_eq s env hbad] at hreq
    have h2 := Option.some_inj.mp hreq
    rw [Prod.mk.injEq] at h2
    obtain ⟨hr, hs⟩ := h2
    constructor
    · intro _
      refine ⟨hr.symm, ?_⟩
      rw [http_request_fail_eq s ⟨env.addResult, []⟩ hbad, ← hr, ← hs]
    · intro hok
      rcases hok with hok | hok <;> [exact absurd hok hbad.1; exact absurd hok hbad.2]
  · constructor
    · intro hbad2
      exact absurd hbad2 hbad
    · intro _
      rw [http_request_ok_eq s env hbad] at hreq
      rcases hrun : run_slot (get_slot s).1 env.sched (get_slot s).2 with _ | s3
      · rw [hrun] at hreq
        simp at hreq
      · rw [hrun] at hreq
        have h2 := Option.some_inj.mp hreq
        rw [Prod.mk.injEq] at h2
        obtain ⟨hr, hs⟩ := h2
        obtain ⟨hdl, hu, hc, _⟩ := get_slot_acquired s
        obtain ⟨hfin, ev, hev, m, hm, hmh, hmr⟩ :=
          run_slot_spec (get_slot s).1 hdl env.sched (get_slot s).2 s3 hu
            (get_slot_finished s hIdle) hc hrun
        subst hs
        refine ⟨hfin, hr.symm, ev, hev, m, hm, ?_, by rw [hmr, hr]⟩
        rw [hc, hmh]

/-- Concrete inputs exercising `http_request_synchronous`: a fresh
scheduler, successful registration, one step event completing the transfer
with `CURLcode` 7. -/
def poolW : PoolState := ⟨[], 0, 1, 0, 0⟩

def envW : HttpEnv := ⟨CURLM_OK, [⟨0, [⟨0, 7⟩]⟩]⟩

def poolW_done : PoolState := ⟨[⟨false, true, some 0, 7⟩], 1, 1, 0, 1⟩

/-- `http_request_synchronous` instantiated at the concrete run above. -/
lemma http_request_synchronous_witness :
    (slotAt poolW_done (get_slot poolW).1).finished = true ∧
    (7 : Int) = (slotAt poolW_done (get_slot poolW).1).curl_result ∧
    ∃ ev ∈ envW.sched, ∃ m ∈ ev.msgs,
      some m.handle = (slotAt (get_slot poolW).2 (get_slot poolW).1).curl ∧ m.result = 7 :=
  (http_request_synchronous poolW envW 7 poolW_done (by decide) (by decide)).2
    (Or.inl rfl)

/-- C9: a cleanup pass never touches an in-use slot (in particular never
destroys its session handle); it never drops the live session count below
the floor (the count either ends at or above the floor, or is unchanged);
when any idle slot still holds a handle after the pass, the count has been
driven down to (or already was at) the floor — every idle handle above the
floor is destroyed; and the cleanup pass is exactly what `step_slots` runs
after draining completions whenever the engine reports fewer running
transfers than `active_requests`. -/
theorem cleanup_slots_floor_reclaim :
    ∀ s : PoolState,
      (∀ i, (slotAt s i).in_use = true → slotAt (cleanup_slots s) i = slotAt s i) ∧
      ((cleanup_slots s).curl_session_count ≥ s.min_curl_sessions ∨
        (cleanup_slots s).curl_session_count = s.curl_session_count) ∧
      ((∃ sl ∈ (cleanup_slots s).slots, sl.in_use = false ∧ sl.curl ≠ none) →
        (cleanup_slots s).curl_session_count ≤ s.min_curl_sessions) ∧
      (∀ ev : StepEvent, ev.num_transfers < s.active_requests →
        step_slots s ev = cleanup_slots (process_curl_messages s ev.msgs)) := by
  intro s
  refine ⟨fun i h => cleanup_slots_in_use_eq s i h, ?_, ?_, ?_⟩
  · exact cleanup_go_count_ge s.min_curl_sessions s.slots s.curl_session_count
  · intro hex
    exact cleanup_go_idle_destroyed s.min_curl_sessions s.slots s.curl_session_count hex
  · intro ev hev
    unfold step_slots
    rw [if_pos hev]

/-- Witness inputs for C9: a pool with one idle slot (kept busy slot behind
it) above the floor, and a pool whose idle handle survives at the floor. -/
def poolC9a : PoolState := ⟨[⟨false, false, some 0, 0⟩, ⟨true, false, some 1, 0⟩], 2, 1, 1, 2⟩

def poolC9b : PoolState := ⟨[⟨false, false, some 0, 0⟩, ⟨false, false, some 1, 0⟩], 2, 2, 0, 2⟩

/-- Witness for C9: the in-use slot of `poolC9a` survives its cleanup pass
untouched; `poolC9b`, with two idle handles and floor 2, keeps an idle
handle, so its session count is at the floor; and a step event reporting a
drop in running transfers triggers drain-then-cleanup on `poolC9a`. -/
theorem cleanup_slots_floor_reclaim_witness :
    slotAt (cleanup_slots poolC9a) 1 = slotAt poolC9a 1 ∧
    (cleanup_slots poolC9b).curl_session_count ≤ poolC9b.min_curl_sessions ∧
    step_slots poolC9a ⟨0, []⟩ = cleanup_slots (process_curl_messages poolC9a []) :=
  ⟨(cleanup_slots_floor_reclaim poolC9a).1 1 (by decide),
   (cleanup_slots_floor_reclaim poolC9b).2.2.1 (by decide),
   (cleanup_slots_floor_reclaim poolC9a).2.2.2 ⟨0, []⟩ (by decide)⟩

/-- C10: when registration with the multi handle fails, `http_request`
returns the start-failure sentinel without running the wait loop (result and
state are those of the empty schedule), the active counter is back at its
pre-call value, the slot is released, and the next acquire picks that same
slot again without growing the pool and without cloning a new session
handle. -/
theorem start_slot_failure_recovery :
    ∀ (s : PoolState) (env : HttpEnv),
      (env.addResult ≠ CURLM_OK ∧ env.addResult ≠ CURLM_CALL_MULTI_PERFORM) →
      ∃ s' : PoolState,
        http_request s env = some (HTTP_START_FAILED, s') ∧
        http_request s { addResult := env.addResult, sched := [] }
          = some (HTTP_START_FAILED, s') ∧
        s'.active_requests = s.active_requests ∧
        (slotAt s' (get_slot s).1).in_use = false ∧
        (get_slot s').1 = (get_slot s).1 ∧
        (get_slot s').2.slots.length = s'.slots.length ∧
        (get_slot s').2.curl_session_count = s'.curl_session_count := by
  intro s env hbad
  set i := (get_slot s).1 with hi
  set s1 := (get_slot s).2 with hs1
  set s2 := set_slot { s1 with active_requests := s1.active_requests - 1 } i
      (fun sl => { sl with in_use := false }) with hs2
  have hlen1 : s1.slots.length = i + 1 := get_slot_len s
  have hlt : i < s1.slots.length := by omega
  have hlen2 : s2.slots.length = i + 1 := by
    rw [hs2]
    show (List.set _ i _).length = i + 1
    rw [List.length_set]
    exact hlen1
  obtain ⟨hdl, hu1, hc1, _⟩ := get_slot_acquired s
  have hslot2 : slotAt s2 i
      = ⟨false, (slotAt s1 i).finished, (slotAt s1 i).curl, (slotAt s1 i).curl_result⟩ := by
    rw [hs2]
    exact slotAt_set_slot_self _ _ _ hlt
  have hbusy2 : ∀ j, j < i → (slotAt s2 j).in_use = true := by
    intro j hj
    rw [hs2, slotAt_set_slot_ne _ _ _ _ (by omega)]
    exact get_slot_busy_lt s j hj
  have hfind : find_idle s2.slots = some i := by
    apply find_idle_of s2.slots i (by omega)
    · exact fun j hj => hbusy2 j hj
    · rw [show nthSlot s2.slots i = slotAt s2 i from rfl, hslot2]
  have hgs2 : get_slot s2 = get_slot_core s2 i s2.slots := by
    unfold get_slot
    rw [hfind]
  have hcurl2 : (nthSlot s2.slots i).curl = some hdl := by
    rw [show nthSlot s2.slots i = slotAt s2 i from rfl, hslot2]
    exact hc1
  refine ⟨s2, ?_, ?_, ?_, ?_, ?_, ?_, ?_⟩
  · rw [http_request_fail_eq s env hbad]
  · rw [http_request_fail_eq s ⟨env.addResult, []⟩ hbad]
  · rw [hs2]
    show ({ s1 with active_requests := s1.active_requests - 1 } : PoolState).active_requests
        = s.active_requests
    have := get_slot_active s
    rw [← hs1] at this
    simp only []
    omega
  · rw [hslot2]
  · rw [hgs2, get_slot_core_fst]
  · rw [hgs2, get_slot_core_len s2 i s2.slots (by omega), hlen2]
  · rw [hgs2, get_slot_core_some s2 i s2.slots hdl hcurl2]

/-- Witness inputs for C10: fresh scheduler, registration refused with
`CURLM_BAD_HANDLE`-style code 5. -/
def envC10 : HttpEnv := ⟨5, [⟨0, [⟨0, 7⟩]⟩]⟩

/-- Witness for C10 at the concrete failing registration. -/
theorem start_slot_failure_recovery_witness :
    ∃ s' : PoolState,
      http_request poolW envC10 = some (HTTP_START_FAILED, s') ∧
      http_request poolW { addResult := envC10.addResult, sched := [] }
        = some (HTTP_START_FAILED, s') ∧
      s'.active_requests = poolW.active_requests ∧
      (slotAt s' (get_slot poolW).1).in_use = false ∧
      (get_slot s').1 = (get_slot poolW).1 ∧
      (get_slot s').2.slots.length = s'.slots.length ∧
      (get_slot s').2.curl_session_count = s'.curl_session_count :=
  start_slot_failure_recovery poolW envC10 (by decide)

end Http2
